import Mathlib

/-!
Shallow embedding of the deduplicating backup engine
(src/db.go, src/cloud.go, src/cmd/backup): the persistent metadata store,
the content fingerprinter, the cloud upload client, and the per-file
decision logic, with theorems checking the specification's claims.
-/

set_option autoImplicit false

namespace Backup

/-- Byte strings are modelled as lists of natural numbers. -/
abbrev Bytes := List Nat

/-- Entry in the database (src/db.go).  `MD5` is the whole-object checksum,
called `Checksum` in the specification; `Hash` is the content sample digest.
Go's `uint64` widens to `Nat` and `int64` to `Int`. -/
structure Entry where
  ID : Nat
  Path : String
  Cloud : String
  Size : Int
  Hash : Bytes
  MD5 : Bytes
deriving DecidableEq, Repr

/-- One natural number as a serialized field. -/
def encNat (n : Nat) : Bytes := [n]

/-- An integer serialized as sign then magnitude. -/
def encInt (z : Int) : Bytes := if z < 0 then [1, (-z).toNat] else [0, z.toNat]

/-- A byte list serialized with a length prefix. -/
def encList (b : Bytes) : Bytes := b.length :: b

/-- A string serialized as the length-prefixed list of its character codes. -/
def encStr (s : String) : Bytes := encList (s.data.map Char.toNat)

/-- Entry.encode (src/db.go).  The gob serialization of the six fields is
modelled as an injective length-prefixed encoding; the code relies only on
decode being its inverse. -/
def Entry.encode (e : Entry) : Bytes :=
  encNat e.ID ++ encStr e.Path ++ encStr e.Cloud ++ encInt e.Size ++
    encList e.Hash ++ encList e.MD5

/-- Read one serialized number. -/
def read1 : Bytes → Option (Nat × Bytes)
  | [] => none
  | x :: t => some (x, t)

/-- Read a length-prefixed byte list. -/
def readList (b : Bytes) : Option (Bytes × Bytes) :=
  match read1 b with
  | none => none
  | some (n, r) => if n ≤ r.length then some (r.take n, r.drop n) else none

/-- Read a serialized string. -/
def readStr (b : Bytes) : Option (String × Bytes) :=
  match readList b with
  | none => none
  | some (cs, r) => some (String.mk (cs.map Char.ofNat), r)

/-- Read a serialized integer. -/
def readInt (b : Bytes) : Option (Int × Bytes) :=
  match read1 b with
  | none => none
  | some (s, r) =>
    match read1 r with
    | none => none
    | some (m, r2) => some (if s = 1 then -(m : Int) else (m : Int), r2)

/-- decodeEntry (src/db.go): inverse of Entry.encode. -/
def decodeEntry (b : Bytes) : Option Entry :=
  match read1 b with
  | none => none
  | some (id, r1) =>
    match readStr r1 with
    | none => none
    | some (path, r2) =>
      match readStr r2 with
      | none => none
      | some (cloud, r3) =>
        match readInt r3 with
        | none => none
        | some (size, r4) =>
          match readList r4 with
          | none => none
          | some (hash, r5) =>
            match readList r5 with
            | none => none
            | some (md5, _) => some ⟨id, path, cloud, size, hash, md5⟩

/-- computeKey (src/db.go): 8 little-endian bytes of the size converted to
uint64 (two's complement), followed by the hash bytes. -/
def computeKey (size : Int) (hash : Bytes) : Bytes :=
  (List.range 8).map (fun i => (size.emod (2 ^ 64)).toNat / 256 ^ i % 256) ++ hash

/-- Association-list lookup, modelling bolt Bucket.Get. -/
def aget {α β : Type} [DecidableEq α] : List (α × β) → α → Option β
  | [], _ => none
  | (k, v) :: t, key => if k = key then some v else aget t key

/-- Association-list store, modelling bolt Bucket.Put. -/
def aput {α β : Type} [DecidableEq α] : List (α × β) → α → β → List (α × β)
  | [], key, val => [(key, val)]
  | (k, v) :: t, key, val =>
    if k = key then (key, val) :: t else (k, v) :: aput t key val

/-- DB (src/db.go): the one bolt bucket used by the store, as its key/value
pairs plus the bucket's sequence counter. -/
structure DB where
  data : List (Bytes × Bytes)
  seq : Nat
deriving DecidableEq, Repr

/-- The decoded entry stored at the content key of (size, hash), if any. -/
def DB.getEntry (i : DB) (size : Int) (hash : Bytes) : Option Entry :=
  match aget i.data (computeKey size hash) with
  | none => none
  | some v => decodeEntry v

/-- UpdateFn (src/db.go). -/
abbrev UpdateFn := Entry → Except String Entry

/-- DB.Add (src/db.go): atomic check-and-create for a content key.  If the
key is present, report whether the entry is still incomplete, without
mutation; otherwise allocate the next sequence ID and persist a fresh entry.
An error result models a rolled-back transaction. -/
def DB.Add (i : DB) (path : String) (size : Int) (hash : Bytes) :
    Except String (Bool × Nat × String × DB) :=
  let key := computeKey size hash
  match aget i.data key with
  | some v =>
    match decodeEntry v with
    | none => Except.error "cannot decode element"
    | some e => Except.ok (e.Cloud == "" || e.MD5.isEmpty, e.ID, e.Path, i)
  | none =>
    let id := i.seq + 1
    Except.ok (true, id, "",
      ⟨aput i.data key (Entry.encode ⟨id, path, "", size, hash, []⟩), id⟩)

/-- DB.Update (src/db.go): atomic read-modify-write of the entry stored at a
content key.  An error result models a rolled-back transaction (the store is
left unchanged). -/
def DB.Update (i : DB) (size : Int) (hash : Bytes) (fn : UpdateFn) : Except String DB :=
  let key := computeKey size hash
  match aget i.data key with
  | none => Except.error "cannot find element"
  | some v =>
    match decodeEntry v with
    | none => Except.error "cannot decode element"
    | some e =>
      match fn e with
      | Except.error s => Except.error s
      | Except.ok e2 => Except.ok ⟨aput i.data key e2.encode, i.seq⟩

/-- DB.CheckMissing (src/db.go): read-only scan (a bolt View transaction)
reporting, for every decodable entry whose ID is not in the touched set, the
pair of its key and its stored path.  Undecodable values are reported as
parse errors, not as missing files. -/
def DB.CheckMissing (i : DB) (found : List Nat) : List (Bytes × String) :=
  i.data.filterMap fun kv =>
    match decodeEntry kv.2 with
    | none => none
    | some e => if found.contains e.ID then none else some (kv.1, e.Path)

/-- dataToRead (src/cmd/backup): how much to read for the sampled checksum. -/
def dataToRead : Nat := 128000

/-- One os.File.Read call filling an n-byte buffer starting at offset off:
it fails with EOF when no byte can be read, and otherwise fills the front of
the buffer, leaving any remainder of the buffer zero (the code ignores the
returned byte count). -/
def fileRead (content : Bytes) (off n : Nat) : Except String Bytes :=
  if n = 0 then Except.ok []
  else
    let avail := (content.drop off).take n
    if avail.length = 0 then Except.error "cannot read from file"
    else Except.ok (avail ++ List.replicate (n - avail.length) 0)

/-- computeChecksum (src/cmd/backup): the fingerprint of a file.  `sha`
models crypto/sha256.Sum256 and `fs` models the file system, mapping a path
to the contents of the file stored there, if any. -/
def computeChecksum (sha : Bytes → Bytes) (fs : String → Option Bytes)
    (path : String) (size : Int) : Except String Bytes :=
  match fs path with
  | none => Except.error "cannot open file"
  | some content =>
    if size < (dataToRead : Int) then
      match fileRead content 0 size.toNat with
      | Except.error s => Except.error s
      | Except.ok b => Except.ok (sha b)
    else
      match fileRead content ((size.toNat - dataToRead) / 2) dataToRead with
      | Except.error s => Except.error s
      | Except.ok b => Except.ok (sha b)

/-- metadataHashKey (src/cloud.go). -/
def metadataHashKey : String := "x-goog-meta-backup-hash"

/-- One uppercase hexadecimal digit. -/
def hexDigit (n : Nat) : Char := if n < 10 then Char.ofNat (48 + n) else Char.ofNat (55 + n)

/-- encode (src/cloud.go): the uppercase hexadecimal rendering of the hash,
as printed by the %X format verb. -/
def encode (hash : Bytes) : String :=
  String.mk ((hash.map fun b => [hexDigit (b / 16 % 16), hexDigit (b % 16)]).flatten)

/-- Attributes of one stored object, modelling storage.ObjectAttrs. -/
structure ObjAttrs where
  size : Int
  MD5 : Bytes
  metadata : List (String × String)
deriving DecidableEq, Repr

/-- Contents of the Google Cloud Storage bucket, modelled as a map from
object path to attributes. -/
structure CloudStore where
  objects : List (String × ObjAttrs)
deriving DecidableEq, Repr

/-- Result of Cloud.Upload: the returned cloud path, whole-object checksum
and error, plus the bucket contents after the call. -/
structure UploadRes where
  cloud : String
  chksum : Bytes
  err : Option String
  store : CloudStore
deriving DecidableEq, Repr

/-- Cloud.Upload (src/cloud.go).  `md5f` models the server-side MD5 digest of
an uploaded object's bytes, `fs` the local file system and `dir` the
Cloud.dir field; filepath.Join(dir, p) is modelled as dir ++ "/" ++ p.  If an
object already exists at the object path, its size and stored digest
attribute are compared with the supplied values: a match is a no-op success
returning the existing checksum, a mismatch is an error; otherwise the file
contents are uploaded and the digest is attached as object metadata. -/
def Cloud.Upload (md5f : Bytes → Bytes) (fs : String → Option Bytes) (dir : String)
    (cst : CloudStore) (fp p : String) (size : Int) (hash : Bytes) : UploadRes :=
  match fs fp with
  | none => ⟨"", [], some "cannot open local file", cst⟩
  | some content =>
    let cloud := dir ++ "/" ++ p
    match aget cst.objects cloud with
    | some attrs =>
      if attrs.size = size ∧ (aget attrs.metadata metadataHashKey).getD "" = encode hash then
        ⟨cloud, attrs.MD5, none, cst⟩
      else
        ⟨cloud, [], some "cloud file already exists, but it is different", cst⟩
    | none =>
      ⟨cloud, md5f content, none,
        ⟨aput cst.objects cloud ⟨(content.length : Int), md5f content,
          [(metadataHashKey, encode hash)]⟩⟩⟩

/-- walker state (src/cmd/backup): the database and the per-run touched set
(the set of IDs mapped to true in the Go map). -/
structure WalkerState where
  db : DB
  touched : List Nat
deriving DecidableEq, Repr

/-- The classification a work call prints for a file. -/
inductive Outcome
  | uploaded (p : String)
  | duplicate (fp dbpath : String)
  | renamed (dbpath p : String)
  | unchanged
deriving DecidableEq, Repr

/-- One recorded invocation of cloud.Upload. -/
structure UploadCall where
  fp : String
  p : String
  size : Int
  hash : Bytes
deriving DecidableEq, Repr

/-- filepath.Rel(root, fp), for a file strictly inside root. -/
def relPath (root fp : String) : Except String String :=
  if (root.data ++ ['/']).isPrefixOf fp.data = true ∧ root.length + 1 < fp.length then
    Except.ok (String.mk (fp.data.drop (root.length + 1)))
  else Except.error "cannot compute relative path"

/-- Setting touched[id] = true. -/
def setTouched (l : List Nat) (id : Nat) : List Nat := if l.contains id then l else id :: l

/-- work (src/cmd/backup): the per-file decision logic run by each worker.
The cloud client is abstracted by the `upload` oracle and every invocation
of it is recorded in the returned list.  The code discards the error result
of its two db.Update calls, so on such an error the model keeps the rolled
back (old) database. -/
def work (sha : Bytes → Bytes) (fs : String → Option Bytes)
    (upload : String → String → Int → Bytes → Except String (String × Bytes))
    (root : String) (st : WalkerState) (fp : String) (size : Int) :
    WalkerState × Except String Outcome × List UploadCall :=
  match relPath root fp with
  | Except.error s => (st, Except.error s, [])
  | Except.ok p =>
    match computeChecksum sha fs fp size with
    | Except.error s => (st, Except.error s, [])
    | Except.ok sum =>
      match st.db.Add p size sum with
      | Except.error s => (st, Except.error s, [])
      | Except.ok (added, id, dbpath, db1) =>
        let wasTouched := st.touched.contains id
        let st1 : WalkerState := ⟨db1, setTouched st.touched id⟩
        if added && !wasTouched then
          match upload fp p size sum with
          | Except.error s => (st1, Except.error s, [⟨fp, p, size, sum⟩])
          | Except.ok (cloudPath, md5) =>
            let db2 :=
              match st1.db.Update size sum
                  (fun e => Except.ok { e with Cloud := cloudPath, MD5 := md5 }) with
              | Except.ok d => d
              | Except.error _ => st1.db
            (⟨db2, st1.touched⟩, Except.ok (Outcome.uploaded p), [⟨fp, p, size, sum⟩])
        else if wasTouched then
          (st1, Except.ok (Outcome.duplicate fp dbpath), [])
        else if p ≠ dbpath then
          let db2 :=
            match st1.db.Update size sum (fun e => Except.ok { e with Path := p }) with
            | Except.ok d => d
            | Except.error _ => st1.db
          (⟨db2, st1.touched⟩, Except.ok (Outcome.renamed dbpath p), [])
        else
          (st1, Except.ok Outcome.unchanged, [])

/-- worker (src/cmd/backup): drains its share of the work channel, printing
a report for each failed file and moving on to the next file.  The second
component collects, per processed file, the reported failure if any. -/
def worker (sha : Bytes → Bytes) (fs : String → Option Bytes)
    (upload : String → String → Int → Bytes → Except String (String × Bytes))
    (root : String) : WalkerState → List (String × Int) →
    WalkerState × List (Option String)
  | st, [] => (st, [])
  | st, (fp, size) :: rest =>
    let r := work sha fs upload root st fp size
    let w := worker sha fs upload root r.1 rest
    (w.1, (match r.2.1 with | Except.error s => some s | Except.ok _ => none) :: w.2)

/-- An entry is either fully incomplete or fully complete: it never has
exactly one of Cloud and MD5 (the spec's Checksum) set. -/
def EntryOK (e : Entry) : Prop := (e.Cloud = "" ∧ e.MD5 = []) ∨ (e.Cloud ≠ "" ∧ e.MD5 ≠ [])

/-- Every decodable entry stored in the database satisfies EntryOK. -/
def DBInv (i : DB) : Prop :=
  ∀ k v, aget i.data k = some v → ∀ e, decodeEntry v = some e → EntryOK e

theorem readList_encList (l r : Bytes) : readList (encList l ++ r) = some (l, r) := by
  simp [readList, encList, read1, List.take_left, List.drop_left]

theorem readStr_encStr (s : String) (r : Bytes) : readStr (encStr s ++ r) = some (s, r) := by
  simp only [readStr, encStr, readList_encList, List.map_map]
  rw [show Char.ofNat ∘ Char.toNat = id from funext Char.ofNat_toNat, List.map_id]

theorem readInt_encInt (z : Int) (r : Bytes) : readInt (encInt z ++ r) = some (z, r) := by
  by_cases h : z < 0
  · simp only [readInt, encInt, if_pos h, List.cons_append, read1, if_pos rfl]
    rw [Int.toNat_of_nonneg (by omega : (0:Int) ≤ -z)]
    simp
  · simp only [readInt, encInt, if_neg h, List.cons_append, read1,
      if_neg (by omega : ¬ (0 : Nat) = 1)]
    rw [Int.toNat_of_nonneg (by omega : (0:Int) ≤ z)]
    simp

theorem decodeEntry_encode_append (e : Entry) (r : Bytes) :
    decodeEntry (e.encode ++ r) = some e := by
  obtain ⟨id, path, cloud, size, hash, md5⟩ := e
  simp only [Entry.encode, encNat, List.cons_append, List.nil_append, List.append_assoc,
    decodeEntry, read1, readStr_encStr, readInt_encInt, readList_encList]

/-- Decoding inverts encoding, for every Entry. -/
theorem decodeEntry_encode (e : Entry) : decodeEntry e.encode = some e := by
  have h := decodeEntry_encode_append e []
  rwa [List.append_nil] at h

theorem aget_aput_self {α β : Type} [DecidableEq α] (l : List (α × β)) (key : α) (val : β) :
    aget (aput l key val) key = some val := by
  induction l with
  | nil => simp [aget, aput]
  | cons kv t ih =>
    obtain ⟨k, v⟩ := kv
    by_cases h : k = key
    · simp [aget, aput, h]
    · simp [aget, aput, h, ih]

theorem aget_aput_ne {α β : Type} [DecidableEq α] (l : List (α × β)) (key k2 : α) (val : β)
    (h : k2 ≠ key) : aget (aput l key val) k2 = aget l k2 := by
  induction l with
  | nil => simp [aget, aput, Ne.symm h]
  | cons kv t ih =>
    obtain ⟨k, v⟩ := kv
    by_cases hk : k = key
    · subst hk
      simp [aget, aput, Ne.symm h]
    · by_cases hk2 : k = k2
      · subst hk2
        simp [aget, aput, hk]
      · simp [aget, aput, hk, hk2, ih]

theorem getEntry_some (i : DB) (size : Int) (hash : Bytes) (e : Entry)
    (h : i.getEntry size hash = some e) :
    ∃ v, aget i.data (computeKey size hash) = some v ∧ decodeEntry v = some e := by
  unfold DB.getEntry at h
  rcases hv : aget i.data (computeKey size hash) with _ | v
  · rw [hv] at h
    exact absurd h (by simp)
  · rw [hv] at h
    exact ⟨v, rfl, h⟩

theorem getEntry_none (i : DB) (size : Int) (hash : Bytes)
    (h : i.getEntry size hash = none) :
    aget i.data (computeKey size hash) = none ∨
      ∃ v, aget i.data (computeKey size hash) = some v ∧ decodeEntry v = none := by
  unfold DB.getEntry at h
  rcases hv : aget i.data (computeKey size hash) with _ | v
  · exact Or.inl rfl
  · rw [hv] at h
    exact Or.inr ⟨v, rfl, h⟩

/-- C2: DB.Add with a path, size and hash, in one transaction: when the
content key (size, hash) is already present its call leaves the store
unmodified and returns the stored entry's ID and path together with
wasNewOrIncomplete, which is true exactly when the stored Cloud is empty or
the stored checksum is empty; when the key is absent it allocates the next
sequence ID of the namespace and persists a new entry carrying the given
path, size and hash and empty Cloud and checksum, returning true. -/
theorem Add_spec (i : DB) (path : String) (size : Int) (hash : Bytes) :
    (∀ e, i.getEntry size hash = some e →
      i.Add path size hash = Except.ok (e.Cloud == "" || e.MD5.isEmpty, e.ID, e.Path, i) ∧
      ((e.Cloud == "" || e.MD5.isEmpty) = true ↔ (e.Cloud = "" ∨ e.MD5 = []))) ∧
    (aget i.data (computeKey size hash) = none →
      ∃ d, i.Add path size hash = Except.ok (true, i.seq + 1, "", d) ∧
        d.getEntry size hash = some ⟨i.seq + 1, path, "", size, hash, []⟩ ∧
        d.seq = i.seq + 1 ∧
        ∀ k, k ≠ computeKey size hash → aget d.data k = aget i.data k) := by
  constructor
  · intro e he
    obtain ⟨v, hv, hdec⟩ := getEntry_some i size hash e he
    constructor
    · simp only [DB.Add, hv, hdec]
    · simp [List.isEmpty_iff]
  · intro hv
    refine ⟨⟨aput i.data (computeKey size hash)
        (Entry.encode ⟨i.seq + 1, path, "", size, hash, []⟩), i.seq + 1⟩, ?_, ?_, rfl, ?_⟩
    · simp only [DB.Add, hv]
    · simp only [DB.getEntry, aget_aput_self, decodeEntry_encode]
    · intro k hk
      exact aget_aput_ne i.data (computeKey size hash) k _ hk

/-- C6: DB.Update with a content key and a mutator: it fails when the store
has no decodable entry for the key or when the mutator fails, and an error
models a rolled-back bolt transaction, which leaves every stored entry
unchanged; on success the mutated entry is persisted under the same key and
every other key is untouched. -/
theorem Update_spec (i : DB) (size : Int) (hash : Bytes) (fn : UpdateFn) :
    (i.getEntry size hash = none → ∃ s, i.Update size hash fn = Except.error s) ∧
    (∀ e s, i.getEntry size hash = some e → fn e = Except.error s →
      i.Update size hash fn = Except.error s) ∧
    (∀ d, i.Update size hash fn = Except.ok d →
      ∃ e e2, i.getEntry size hash = some e ∧ fn e = Except.ok e2 ∧
        d.getEntry size hash = some e2 ∧ d.seq = i.seq ∧
        ∀ k, k ≠ computeKey size hash → aget d.data k = aget i.data k) := by
  refine ⟨?_, ?_, ?_⟩
  · intro h
    rcases getEntry_none i size hash h with hv | ⟨v, hv, hdec⟩
    · exact ⟨"cannot find element", by simp only [DB.Update, hv]⟩
    · exact ⟨"cannot decode element", by simp only [DB.Update, hv, hdec]⟩
  · intro e s he hfn
    obtain ⟨v, hv, hdec⟩ := getEntry_some i size hash e he
    simp only [DB.Update, hv, hdec, hfn]
  · intro d hd
    simp only [DB.Update] at hd
    split at hd
    · exact absurd hd (by simp)
    · next v hv =>
      split at hd
      · exact absurd hd (by simp)
      · next e hdec =>
        split at hd
        · exact absurd hd (by simp)
        · next e2 hfn =>
          cases hd
          refine ⟨e, e2, ?_, hfn, ?_, rfl, ?_⟩
          · simp only [DB.getEntry, hv, hdec]
          · simp only [DB.getEntry, aget_aput_self, decodeEntry_encode]
          · intro k hk
            exact aget_aput_ne i.data (computeKey size hash) k _ hk

/-- C8: encoding an Entry and then decoding the result reproduces every
field exactly, for every Entry value, in particular when Cloud is the empty
string and when the whole-object checksum is empty. -/
theorem Entry_roundtrip (e : Entry) : decodeEntry e.encode = some e :=
  decodeEntry_encode e

theorem aget_of_mem_nodup {α β : Type} [DecidableEq α] (l : List (α × β)) (k : α) (v : β)
    (hmem : (k, v) ∈ l) (hwf : (l.map Prod.fst).Nodup) : aget l k = some v := by
  induction l with
  | nil => cases hmem
  | cons kv t ih =>
    obtain ⟨k0, v0⟩ := kv
    simp only [List.map_cons, List.nodup_cons] at hwf
    rcases List.mem_cons.mp hmem with h | h
    · cases h
      simp [aget]
    · have hk : k0 ≠ k := by
        intro hkk
        subst hkk
        exact hwf.1 (List.mem_map_of_mem Prod.fst h)
      simp [aget, hk, ih h hwf.2]

theorem CheckMissing_cons_none (found : List Nat) (k0 v0 : Bytes)
    (t : List (Bytes × Bytes)) (h : decodeEntry v0 = none) :
    DB.CheckMissing ⟨(k0, v0) :: t, 0⟩ found = DB.CheckMissing ⟨t, 0⟩ found := by
  simp only [DB.CheckMissing, List.filterMap_cons, h]

theorem CheckMissing_cons_touched (found : List Nat) (k0 v0 : Bytes)
    (t : List (Bytes × Bytes)) (e : Entry) (h : decodeEntry v0 = some e)
    (hc : found.contains e.ID = true) :
    DB.CheckMissing ⟨(k0, v0) :: t, 0⟩ found = DB.CheckMissing ⟨t, 0⟩ found := by
  have hm : e.ID ∈ found := by simpa using hc
  simp [DB.CheckMissing, List.filterMap_cons, h, hm]

theorem CheckMissing_cons_missing (found : List Nat) (k0 v0 : Bytes)
    (t : List (Bytes × Bytes)) (e : Entry) (h : decodeEntry v0 = some e)
    (hc : found.contains e.ID = false) :
    DB.CheckMissing ⟨(k0, v0) :: t, 0⟩ found =
      (k0, e.Path) :: DB.CheckMissing ⟨t, 0⟩ found := by
  have hm : e.ID ∉ found := by simpa using hc
  simp [DB.CheckMissing, List.filterMap_cons, h, hm]

theorem mem_CheckMissing_iff (found : List Nat) (k : Bytes) (p : String) :
    ∀ dta : List (Bytes × Bytes),
      ((k, p) ∈ DB.CheckMissing ⟨dta, 0⟩ found ↔
        ∃ v e, (k, v) ∈ dta ∧ decodeEntry v = some e ∧
          found.contains e.ID = false ∧ e.Path = p) := by
  intro dta
  induction dta with
  | nil => simp [DB.CheckMissing]
  | cons kv t ih =>
    obtain ⟨k0, v0⟩ := kv
    rcases hdec : decodeEntry v0 with _ | e0
    · rw [CheckMissing_cons_none found k0 v0 t hdec]
      constructor
      · intro h
        obtain ⟨v, e, hm, h2, h3, h4⟩ := ih.mp h
        exact ⟨v, e, List.mem_cons_of_mem _ hm, h2, h3, h4⟩
      · rintro ⟨v, e, hm, h2, h3, h4⟩
        rcases List.mem_cons.mp hm with hh | hh
        · cases hh
          rw [hdec] at h2
          cases h2
        · exact ih.mpr ⟨v, e, hh, h2, h3, h4⟩
    · rcases hc : found.contains e0.ID with _ | _
      · rw [CheckMissing_cons_missing found k0 v0 t e0 hdec hc]
        constructor
        · intro h
          rcases List.mem_cons.mp h with hh | hh
          · cases hh
            exact ⟨v0, e0, List.mem_cons_self _ _, hdec, hc, rfl⟩
          · obtain ⟨v, e, hm, h2, h3, h4⟩ := ih.mp hh
            exact ⟨v, e, List.mem_cons_of_mem _ hm, h2, h3, h4⟩
        · rintro ⟨v, e, hm, h2, h3, h4⟩
          rcases List.mem_cons.mp hm with hh | hh
          · cases hh
            rw [hdec] at h2
            cases h2
            subst h4
            exact List.mem_cons_self _ _
          · exact List.mem_cons_of_mem _ (ih.mpr ⟨v, e, hh, h2, h3, h4⟩)
      · rw [CheckMissing_cons_touched found k0 v0 t e0 hdec hc]
        constructor
        · intro h
          obtain ⟨v, e, hm, h2, h3, h4⟩ := ih.mp h
          exact ⟨v, e, List.mem_cons_of_mem _ hm, h2, h3, h4⟩
        · rintro ⟨v, e, hm, h2, h3, h4⟩
          rcases List.mem_cons.mp hm with hh | hh
          · cases hh
            rw [hdec] at h2
            cases h2
            rw [hc] at h3
            cases h3
          · exact ih.mpr ⟨v, e, hh, h2, h3, h4⟩

theorem count_CheckMissing (found : List Nat) (k v : Bytes) (e : Entry) :
    ∀ dta : List (Bytes × Bytes), (dta.map Prod.fst).Nodup →
      aget dta k = some v → decodeEntry v = some e → found.contains e.ID = false →
      (DB.CheckMissing ⟨dta, 0⟩ found).count (k, e.Path) = 1 := by
  intro dta
  induction dta with
  | nil => intro _ hget; cases hget
  | cons kv t ih =>
    obtain ⟨k0, v0⟩ := kv
    intro hwf hget hdec hc
    simp only [List.map_cons, List.nodup_cons] at hwf
    by_cases hk : k0 = k
    · subst hk
      have hv0 : v0 = v := by simpa [aget] using hget
      subst hv0
      rw [CheckMissing_cons_missing found k0 v0 t e hdec hc, List.count_cons_self]
      have hnot : (k0, e.Path) ∉ DB.CheckMissing ⟨t, 0⟩ found := by
        intro hmem
        obtain ⟨v2, e2, hm2, _, _, _⟩ := (mem_CheckMissing_iff found k0 e.Path t).mp hmem
        exact hwf.1 (List.mem_map_of_mem Prod.fst hm2)
      rw [List.count_eq_zero.mpr hnot]
    · have hget2 : aget t k = some v := by simpa [aget, hk] using hget
      have htail := ih hwf.2 hget2 hdec hc
      rcases hdec0 : decodeEntry v0 with _ | e0
      · rw [CheckMissing_cons_none found k0 v0 t hdec0]
        exact htail
      · rcases hc0 : found.contains e0.ID with _ | _
        · rw [CheckMissing_cons_missing found k0 v0 t e0 hdec0 hc0,
            List.count_cons_of_ne (by simp [Ne.symm hk]), htail]
        · rw [CheckMissing_cons_touched found k0 v0 t e0 hdec0 hc0]
          exact htail

/-- C7: the missing-file report of DB.CheckMissing contains exactly the
stored entries whose ID is not in the touched set: each such entry is
reported exactly once, an entry whose ID was touched is never reported, and
only stored entries are reported.  The scan runs in a bolt View transaction,
modelled as a pure function of the store, so it modifies and deletes
nothing. -/
theorem CheckMissing_spec (i : DB) (found : List Nat)
    (hwf : (i.data.map Prod.fst).Nodup) :
    (∀ k v e, aget i.data k = some v → decodeEntry v = some e →
      found.contains e.ID = false →
      (i.CheckMissing found).count (k, e.Path) = 1) ∧
    (∀ k v e, aget i.data k = some v → decodeEntry v = some e →
      found.contains e.ID = true → ∀ p, (k, p) ∉ i.CheckMissing found) ∧
    (∀ k p, (k, p) ∈ i.CheckMissing found →
      ∃ v e, aget i.data k = some v ∧ decodeEntry v = some e ∧ e.Path = p ∧
        found.contains e.ID = false) := by
  have hrepr : i.CheckMissing found = DB.CheckMissing ⟨i.data, 0⟩ found := rfl
  refine ⟨?_, ?_, ?_⟩
  · intro k v e hget hdec hc
    rw [hrepr]
    exact count_CheckMissing found k v e i.data hwf hget hdec hc
  · intro k v e hget hdec hc p hmem
    rw [hrepr] at hmem
    obtain ⟨v2, e2, hm2, hdec2, hc2, _⟩ := (mem_CheckMissing_iff found k p i.data).mp hmem
    have hv2 : aget i.data k = some v2 := aget_of_mem_nodup i.data k v2 hm2 hwf
    rw [hget] at hv2
    cases hv2
    rw [hdec] at hdec2
    cases hdec2
    rw [hc] at hc2
    cases hc2
  · intro k p hmem
    rw [hrepr] at hmem
    obtain ⟨v2, e2, hm2, hdec2, hc2, hp2⟩ := (mem_CheckMissing_iff found k p i.data).mp hmem
    exact ⟨v2, e2, aget_of_mem_nodup i.data k v2 hm2 hwf, hdec2, hp2, hc2⟩

/-- C3: for a file whose stat size matches its contents, computeChecksum
digests the whole contents when the size is below the fixed 128000-byte
threshold, and otherwise reads and digests exactly 128000 bytes starting at
offset (size - 128000) / 2; a failure to open the file, and a failure of the
read performed by either branch, is returned to the caller as an error and
never treated as empty content; and since crypto/sha256 yields 32-byte
digests, every successful result is a 32-byte digest. -/
theorem computeChecksum_spec (sha : Bytes → Bytes) (fs : String → Option Bytes)
    (path : String) (size : Int) (hsha : ∀ b, (sha b).length = 32) :
    (fs path = none → ∃ s, computeChecksum sha fs path size = Except.error s) ∧
    (∀ content s, fs path = some content →
      (size < (dataToRead : Int) → fileRead content 0 size.toNat = Except.error s →
        computeChecksum sha fs path size = Except.error s) ∧
      ((dataToRead : Int) ≤ size →
        fileRead content ((size.toNat - dataToRead) / 2) dataToRead = Except.error s →
        computeChecksum sha fs path size = Except.error s)) ∧
    (∀ content, fs path = some content → (content.length : Int) = size →
      (0 < size → size < (dataToRead : Int) →
        computeChecksum sha fs path size = Except.ok (sha content)) ∧
      ((dataToRead : Int) ≤ size →
        computeChecksum sha fs path size =
          Except.ok
            (sha ((content.drop ((content.length - dataToRead) / 2)).take dataToRead)) ∧
        ((content.drop ((content.length - dataToRead) / 2)).take dataToRead).length =
          dataToRead)) ∧
    (∀ r, computeChecksum sha fs path size = Except.ok r → r.length = 32) := by
  refine ⟨?_, ?_, ?_, ?_⟩
  · intro h
    exact ⟨"cannot open file", by simp only [computeChecksum, h]⟩
  · intro content s hfs
    constructor
    · intro hlt hread
      simp only [computeChecksum, hfs, if_pos hlt, hread]
    · intro hge hread
      simp only [computeChecksum, hfs, if_neg (not_lt.mpr hge), hread]
  · intro content hfs hlen
    have hS : content.length = size.toNat := by omega
    constructor
    · intro hpos hlt
      have hn : ¬ size.toNat = 0 := by omega
      have hread : fileRead content 0 size.toNat = Except.ok content := by
        have hav : (content.drop 0).take size.toNat = content := by
          rw [List.drop_zero]
          exact List.take_of_length_le (by omega)
        simp only [fileRead, if_neg hn, hav]
        rw [if_neg (by omega : ¬ content.length = 0)]
        simp [hS]
      simp only [computeChecksum, hfs, if_pos hlt, hread]
    · intro hge
      rw [hS]
      have hT : dataToRead ≤ size.toNat := by
        have : (dataToRead : Int) = (128000 : Int) := by norm_num [dataToRead]
        omega
      have hoff : (size.toNat - dataToRead) / 2 ≤ size.toNat - dataToRead :=
        Nat.div_le_self _ _
      have hwin : ((content.drop ((size.toNat - dataToRead) / 2)).take dataToRead).length =
          dataToRead := by
        rw [List.length_take, List.length_drop]
        omega
      have hread : fileRead content ((size.toNat - dataToRead) / 2) dataToRead =
          Except.ok ((content.drop ((size.toNat - dataToRead) / 2)).take dataToRead) := by
        simp only [fileRead, hwin]
        rw [if_neg (by decide : ¬ dataToRead = 0),
          if_neg (by decide : ¬ dataToRead = 0)]
        simp
      refine ⟨?_, hwin⟩
      simp only [computeChecksum, hfs, if_neg (not_lt.mpr hge), hread]
  · intro r h
    simp only [computeChecksum] at h
    split at h
    · cases h
    · split at h
      · split at h
        · cases h
        · cases h
          exact hsha _
      · split at h
        · cases h
        · cases h
          exact hsha _

/-- C9: Cloud.Upload with a local path, object path, size and expected
digest: when an object already exists at the object path and both its size
and its stored digest attribute match the supplied values, the call is a
no-op success returning the existing object's checksum; when either one
differs it returns a conflict error and the bucket is unchanged, so the
existing object is never overwritten; when no object exists, a fresh upload
stores the file's bytes and attaches the digest as object metadata, under
the metadata hash key, for future conflict checks. -/
theorem Upload_spec (md5f : Bytes → Bytes) (fs : String → Option Bytes) (dir : String)
    (cst : CloudStore) (fp p : String) (size : Int) (hash : Bytes) (content : Bytes)
    (hfs : fs fp = some content) :
    (∀ attrs, aget cst.objects (dir ++ "/" ++ p) = some attrs →
      (attrs.size = size ∧ (aget attrs.metadata metadataHashKey).getD "" = encode hash →
        Cloud.Upload md5f fs dir cst fp p size hash =
          ⟨dir ++ "/" ++ p, attrs.MD5, none, cst⟩) ∧
      (¬(attrs.size = size ∧ (aget attrs.metadata metadataHashKey).getD "" = encode hash) →
        ∃ s, Cloud.Upload md5f fs dir cst fp p size hash =
          ⟨dir ++ "/" ++ p, [], some s, cst⟩)) ∧
    (aget cst.objects (dir ++ "/" ++ p) = none →
      Cloud.Upload md5f fs dir cst fp p size hash =
        ⟨dir ++ "/" ++ p, md5f content, none,
          ⟨aput cst.objects (dir ++ "/" ++ p)
            ⟨(content.length : Int), md5f content, [(metadataHashKey, encode hash)]⟩⟩⟩ ∧
      aget (Cloud.Upload md5f fs dir cst fp p size hash).store.objects (dir ++ "/" ++ p) =
        some ⟨(content.length : Int), md5f content, [(metadataHashKey, encode hash)]⟩ ∧
      aget ([(metadataHashKey, encode hash)] : List (String × String)) metadataHashKey =
        some (encode hash)) := by
  constructor
  · intro attrs hattrs
    constructor
    · intro hmatch
      simp only [Cloud.Upload, hfs, hattrs, if_pos hmatch]
    · intro hmiss
      exact ⟨"cloud file already exists, but it is different",
        by simp only [Cloud.Upload, hfs, hattrs, if_neg hmiss]⟩
  · intro hnone
    refine ⟨?_, ?_, ?_⟩
    · simp only [Cloud.Upload, hfs, hnone]
    · simp only [Cloud.Upload, hfs, hnone]
      exact aget_aput_self _ _ _
    · simp [aget]

theorem Add_ok_getEntry (i : DB) (path : String) (size : Int) (hash : Bytes)
    (added : Bool) (id : Nat) (dbpath : String) (d : DB)
    (h : i.Add path size hash = Except.ok (added, id, dbpath, d)) :
    ∃ e, d.getEntry size hash = some e := by
  simp only [DB.Add] at h
  split at h
  · next v hv =>
    split at h
    · cases h
    · next e hdec =>
      cases h
      exact ⟨e, by simp only [DB.getEntry, hv, hdec]⟩
  · next hv =>
    cases h
    exact ⟨⟨i.seq + 1, path, "", size, hash, []⟩,
      by simp only [DB.getEntry, aget_aput_self, decodeEntry_encode]⟩

theorem Add_exists_branch (i : DB) (path : String) (size : Int) (hash : Bytes)
    (id : Nat) (dbpath : String) (d : DB)
    (h : i.Add path size hash = Except.ok (false, id, dbpath, d)) : d = i := by
  simp only [DB.Add] at h
  split at h
  · split at h
    · cases h
    · simp only [Except.ok.injEq, Prod.mk.injEq] at h
      exact h.2.2.2.symm
  · simp at h

theorem Update_ok_char (i : DB) (size : Int) (hash : Bytes) (fn : UpdateFn) (d : DB)
    (hd : i.Update size hash fn = Except.ok d) :
    ∃ v e e2, aget i.data (computeKey size hash) = some v ∧ decodeEntry v = some e ∧
      fn e = Except.ok e2 ∧ d = ⟨aput i.data (computeKey size hash) e2.encode, i.seq⟩ := by
  simp only [DB.Update] at hd
  split at hd
  · cases hd
  · next v hv =>
    split at hd
    · cases hd
    · next e hdec =>
      split at hd
      · cases hd
      · next e2 hfn =>
        cases hd
        exact ⟨v, e, e2, hv, hdec, hfn, rfl⟩

theorem Update_total_ok (i : DB) (size : Int) (hash : Bytes) (e : Entry)
    (h : i.getEntry size hash = some e) (f : Entry → Entry) :
    i.Update size hash (fun x => Except.ok (f x)) =
      Except.ok ⟨aput i.data (computeKey size hash) (Entry.encode (f e)), i.seq⟩ := by
  obtain ⟨v, hv, hdec⟩ := getEntry_some i size hash e h
  simp only [DB.Update, hv, hdec]

theorem Update_setCloud_ok (i : DB) (size : Int) (hash : Bytes) (e : Entry)
    (h : i.getEntry size hash = some e) (c : String) (m : Bytes) :
    i.Update size hash (fun x => Except.ok { x with Cloud := c, MD5 := m }) =
      Except.ok ⟨aput i.data (computeKey size hash)
        (Entry.encode { e with Cloud := c, MD5 := m }), i.seq⟩ := by
  obtain ⟨v, hv, hdec⟩ := getEntry_some i size hash e h
  simp only [DB.Update, hv, hdec]

theorem Update_setPath_ok (i : DB) (size : Int) (hash : Bytes) (e : Entry)
    (h : i.getEntry size hash = some e) (p : String) :
    i.Update size hash (fun x => Except.ok { x with Path := p }) =
      Except.ok ⟨aput i.data (computeKey size hash)
        (Entry.encode { e with Path := p }), i.seq⟩ := by
  obtain ⟨v, hv, hdec⟩ := getEntry_some i size hash e h
  simp only [DB.Update, hv, hdec]

/-- C1: the per-file decision logic of work classifies every discovered file
into exactly one of four outcomes from the addIfAbsent result and the
touched flag: an already-touched ID is reported as an intra-run duplicate
with no store mutation beyond the addIfAbsent call itself; a new-or-
incomplete entry with an untouched ID is uploaded and then Cloud and the
checksum are set through the store update; a complete entry with an
untouched ID and a differing stored path gets only its Path updated; and a
complete entry with an untouched ID and a matching stored path changes
nothing. -/
theorem work_spec (sha : Bytes → Bytes) (fs : String → Option Bytes)
    (upload : String → String → Int → Bytes → Except String (String × Bytes))
    (root : String) (st : WalkerState) (fp : String) (size : Int)
    (p : String) (sum : Bytes) (added : Bool) (id : Nat) (dbpath : String) (db1 : DB)
    (hrel : relPath root fp = Except.ok p)
    (hsum : computeChecksum sha fs fp size = Except.ok sum)
    (hadd : st.db.Add p size sum = Except.ok (added, id, dbpath, db1)) :
    (st.touched.contains id = true →
      work sha fs upload root st fp size =
        (⟨db1, setTouched st.touched id⟩, Except.ok (Outcome.duplicate fp dbpath), [])) ∧
    (added = true → st.touched.contains id = false →
      ∀ c m, upload fp p size sum = Except.ok (c, m) →
        ∃ e, db1.getEntry size sum = some e ∧
          work sha fs upload root st fp size =
            (⟨⟨aput db1.data (computeKey size sum)
                  (Entry.encode { e with Cloud := c, MD5 := m }), db1.seq⟩,
              setTouched st.touched id⟩,
              Except.ok (Outcome.uploaded p), [⟨fp, p, size, sum⟩]) ∧
          (work sha fs upload root st fp size).1.db.getEntry size sum =
            some { e with Cloud := c, MD5 := m }) ∧
    (added = false → st.touched.contains id = false → p ≠ dbpath →
      ∃ e, db1.getEntry size sum = some e ∧
        work sha fs upload root st fp size =
          (⟨⟨aput db1.data (computeKey size sum)
                (Entry.encode { e with Path := p }), db1.seq⟩,
            setTouched st.touched id⟩,
            Except.ok (Outcome.renamed dbpath p), []) ∧
        (work sha fs upload root st fp size).1.db.getEntry size sum =
          some { e with Path := p }) ∧
    (added = false → st.touched.contains id = false → p = dbpath →
      work sha fs upload root st fp size =
        (⟨db1, setTouched st.touched id⟩, Except.ok Outcome.unchanged, [])) := by
  refine ⟨?_, ?_, ?_, ?_⟩
  · intro ht
    have htm : id ∈ st.touched := by simpa using ht
    simp [work, hrel, hsum, hadd, htm]
  · intro hadded htouch c m hup
    have htm : id ∉ st.touched := by simpa using htouch
    obtain ⟨e, hge⟩ := Add_ok_getEntry st.db p size sum added id dbpath db1 hadd
    have hupd := Update_setCloud_ok db1 size sum e hge c m
    have hw : work sha fs upload root st fp size =
        (⟨⟨aput db1.data (computeKey size sum)
              (Entry.encode { e with Cloud := c, MD5 := m }), db1.seq⟩,
          setTouched st.touched id⟩,
          Except.ok (Outcome.uploaded p), [⟨fp, p, size, sum⟩]) := by
      simp [work, hrel, hsum, hadd, hadded, htm, hup, hupd]
    refine ⟨e, hge, hw, ?_⟩
    rw [hw]
    simp only [DB.getEntry, aget_aput_self, decodeEntry_encode]
  · intro hadded htouch hne
    have htm : id ∉ st.touched := by simpa using htouch
    obtain ⟨e, hge⟩ := Add_ok_getEntry st.db p size sum added id dbpath db1 hadd
    have hupd := Update_setPath_ok db1 size sum e hge p
    have hw : work sha fs upload root st fp size =
        (⟨⟨aput db1.data (computeKey size sum)
              (Entry.encode { e with Path := p }), db1.seq⟩,
          setTouched st.touched id⟩,
          Except.ok (Outcome.renamed dbpath p), []) := by
      simp [work, hrel, hsum, hadd, hadded, htm, hne, hupd]
    refine ⟨e, hge, hw, ?_⟩
    rw [hw]
    simp only [DB.getEntry, aget_aput_self, decodeEntry_encode]
  · intro hadded htouch hpe
    have htm : id ∉ st.touched := by simpa using htouch
    subst hpe
    simp [work, hrel, hsum, hadd, hadded, htm]

/-- C4: when the content key maps to a complete entry (addIfAbsent reports
it as not new or incomplete) whose ID was not touched earlier in the run and
whose stored path differs from the file's current relative path, the rename
branch of work updates only the Path field of that entry — ID, Size, Hash,
Cloud and the checksum are unchanged — every other key of the store is
untouched, and no upload is invoked. -/
theorem rename_frame (sha : Bytes → Bytes) (fs : String → Option Bytes)
    (upload : String → String → Int → Bytes → Except String (String × Bytes))
    (root : String) (st : WalkerState) (fp : String) (size : Int)
    (p : String) (sum : Bytes) (id : Nat) (dbpath : String) (db1 : DB)
    (hrel : relPath root fp = Except.ok p)
    (hsum : computeChecksum sha fs fp size = Except.ok sum)
    (hadd : st.db.Add p size sum = Except.ok (false, id, dbpath, db1))
    (htouch : st.touched.contains id = false) (hne : p ≠ dbpath) :
    db1 = st.db ∧
    ∃ e, st.db.getEntry size sum = some e ∧
      (work sha fs upload root st fp size).1.db.getEntry size sum =
        some ⟨e.ID, p, e.Cloud, e.Size, e.Hash, e.MD5⟩ ∧
      (∀ k, k ≠ computeKey size sum →
        aget (work sha fs upload root st fp size).1.db.data k = aget st.db.data k) ∧
      (work sha fs upload root st fp size).2.2 = [] := by
  have hdb1 : db1 = st.db := Add_exists_branch st.db p size sum id dbpath db1 hadd
  subst hdb1
  refine ⟨rfl, ?_⟩
  have htm : id ∉ st.touched := by simpa using htouch
  obtain ⟨e, hge⟩ := Add_ok_getEntry st.db p size sum false id dbpath st.db hadd
  have hupd := Update_setPath_ok st.db size sum e hge p
  have hw : work sha fs upload root st fp size =
      (⟨⟨aput st.db.data (computeKey size sum)
            (Entry.encode { e with Path := p }), st.db.seq⟩,
        setTouched st.touched id⟩,
        Except.ok (Outcome.renamed dbpath p), []) := by
    simp [work, hrel, hsum, hadd, htm, hne, hupd]
  refine ⟨e, hge, ?_, ?_, ?_⟩
  · rw [hw]
    simp only [DB.getEntry, aget_aput_self, decodeEntry_encode]
  · intro k hk
    rw [hw]
    exact aget_aput_ne st.db.data (computeKey size sum) k _ hk
  · rw [hw]

/-- C5: what holds of the code around the claim's failure semantics: the
worker produces one report slot per queued file, so no failure aborts the
remaining files, and a file whose work call fails contributes exactly its
error as the report while the remaining files are still processed from the
resulting state.  The claim's final clause — no store error encountered
while processing a file is silently discarded — fails on the code: work
ignores the error value of both of its db.Update calls.  The third conjunct
delimits that defect: in this embedding's store, whose transactions never
fail to commit, the two discarded results always succeed after a successful
addIfAbsent, so the discard is observable exactly when a bolt transaction
fails at commit (for example a disk write error), a failure the embedding
cannot represent and the code reports nowhere. -/
theorem worker_spec (sha : Bytes → Bytes) (fs : String → Option Bytes)
    (upload : String → String → Int → Bytes → Except String (String × Bytes))
    (root : String) :
    (∀ st files, (worker sha fs upload root st files).2.length = files.length) ∧
    (∀ st fp size rest s, (work sha fs upload root st fp size).2.1 = Except.error s →
      (worker sha fs upload root st ((fp, size) :: rest)).2 =
        some s ::
          (worker sha fs upload root (work sha fs upload root st fp size).1 rest).2) ∧
    (∀ (i : DB) (path : String) (size : Int) (hash : Bytes)
        (added : Bool) (id : Nat) (dbpath : String) (d1 : DB),
      i.Add path size hash = Except.ok (added, id, dbpath, d1) →
      ∀ f : Entry → Entry, ∃ d2,
        d1.Update size hash (fun x => Except.ok (f x)) = Except.ok d2) := by
  refine ⟨?_, ?_, ?_⟩
  · intro st files
    induction files generalizing st with
    | nil => rfl
    | cons f rest ih =>
      obtain ⟨fp, size⟩ := f
      simp [worker, ih]
  · intro st fp size rest s h
    simp [worker, h]
  · intro i path size hash added id dbpath d1 hadd f
    obtain ⟨e, hge⟩ := Add_ok_getEntry i path size hash added id dbpath d1 hadd
    exact ⟨_, Update_total_ok d1 size hash e hge f⟩

theorem DBInv_aput (i : DB) (k : Bytes) (e2 : Entry) (h : DBInv i) (he : EntryOK e2)
    (s : Nat) : DBInv ⟨aput i.data k e2.encode, s⟩ := by
  intro k2 v hv e hdec
  by_cases hk : k2 = k
  · subst hk
    rw [show (⟨aput i.data k2 e2.encode, s⟩ : DB).data = aput i.data k2 e2.encode from rfl,
      aget_aput_self] at hv
    cases hv
    rw [decodeEntry_encode] at hdec
    cases hdec
    exact he
  · rw [show (⟨aput i.data k e2.encode, s⟩ : DB).data = aput i.data k e2.encode from rfl,
      aget_aput_ne i.data k k2 _ hk] at hv
    exact h k2 v hv e hdec

theorem Add_preserves_DBInv (i : DB) (path : String) (size : Int) (hash : Bytes)
    (added : Bool) (id : Nat) (dbpath : String) (d : DB)
    (hadd : i.Add path size hash = Except.ok (added, id, dbpath, d)) (h : DBInv i) :
    DBInv d := by
  simp only [DB.Add] at hadd
  split at hadd
  · split at hadd
    · cases hadd
    · cases hadd
      exact h
  · cases hadd
    exact DBInv_aput i _ _ h (Or.inl ⟨rfl, rfl⟩) _

theorem work_preserves_DBInv (sha : Bytes → Bytes) (fs : String → Option Bytes)
    (upload : String → String → Int → Bytes → Except String (String × Bytes))
    (root : String)
    (hup : ∀ fp p size hash c m,
      upload fp p size hash = Except.ok (c, m) → c ≠ "" ∧ m ≠ [])
    (st : WalkerState) (fp : String) (size : Int) (h : DBInv st.db) :
    DBInv (work sha fs upload root st fp size).1.db := by
  simp only [work]
  split
  · exact h
  · next p hp =>
    split
    · exact h
    · next sum hsum =>
      split
      · exact h
      · next added id dbpath db1 hadd =>
        have hdb1 : DBInv db1 :=
          Add_preserves_DBInv st.db p size sum added id dbpath db1 hadd h
        split
        · split
          · exact hdb1
          · next c m hu =>
            obtain ⟨hcne, hmne⟩ := hup fp p size sum c m hu
            split
            · next d hupd =>
              obtain ⟨v, e, e2, hv, hdec, hfn, hdq⟩ :=
                Update_ok_char db1 size sum _ d hupd
              cases hfn
              subst hdq
              exact DBInv_aput db1 _ _ hdb1 (Or.inr ⟨hcne, hmne⟩) _
            · exact hdb1
        · split
          · exact hdb1
          · split
            · split
              · next d hupd =>
                obtain ⟨v, e, e2, hv, hdec, hfn, hdq⟩ :=
                  Update_ok_char db1 size sum _ d hupd
                cases hfn
                subst hdq
                have he : EntryOK e := hdb1 _ v hv e hdec
                refine DBInv_aput db1 _ _ hdb1 ?_ _
                rcases he with ⟨h1, h2⟩ | ⟨h1, h2⟩
                · exact Or.inl ⟨h1, h2⟩
                · exact Or.inr ⟨h1, h2⟩
              · exact hdb1
            · exact hdb1

theorem worker_preserves_DBInv (sha : Bytes → Bytes) (fs : String → Option Bytes)
    (upload : String → String → Int → Bytes → Except String (String × Bytes))
    (root : String)
    (hup : ∀ fp p size hash c m,
      upload fp p size hash = Except.ok (c, m) → c ≠ "" ∧ m ≠ []) :
    ∀ (files : List (String × Int)) (st : WalkerState), DBInv st.db →
      DBInv (worker sha fs upload root st files).1.db := by
  intro files
  induction files with
  | nil => intro st h; exact h
  | cons f rest ih =>
    intro st h
    obtain ⟨fp, size⟩ := f
    exact ih _ (work_preserves_DBInv sha fs upload root hup st fp size h)

/-- C10: every entry reachable from an empty store through any sequence of
work calls is either fully incomplete (Cloud empty and checksum empty) or
fully complete (both non-empty), never exactly one of the two: creation
initializes both fields empty and the only operation that sets them, the
post-upload update, sets Cloud and the checksum together in one transaction,
under the boundary assumption that a successful upload returns a non-empty
object path and a non-empty whole-object checksum, as the Google Cloud
client does. -/
theorem store_completeness_invariant (sha : Bytes → Bytes) (fs : String → Option Bytes)
    (upload : String → String → Int → Bytes → Except String (String × Bytes))
    (root : String)
    (hup : ∀ fp p size hash c m,
      upload fp p size hash = Except.ok (c, m) → c ≠ "" ∧ m ≠ [])
    (files : List (String × Int)) :
    DBInv (worker sha fs upload root ⟨⟨[], 0⟩, []⟩ files).1.db := by
  apply worker_preserves_DBInv sha fs upload root hup
  intro k v hv e hdec
  cases hv

/-- A concrete digest function for witnesses: 32 zero bytes. -/
def sha0 : Bytes → Bytes := fun _ => List.replicate 32 0

/-- A concrete file system for witnesses, holding one file. -/
def fs0 : String → Option Bytes := fun q => if q = "r/a" then some [7] else none

/-- A concrete file system for witnesses whose one file is empty on disk
although it was enqueued with stat size 1, so reading it fails. -/
def fs1 : String → Option Bytes := fun q => if q = "r/e" then some [] else none

/-- A concrete upload oracle for witnesses, always succeeding. -/
def upload0 : String → String → Int → Bytes → Except String (String × Bytes) :=
  fun _ _ _ _ => Except.ok ("c", [9])

/-- A concrete server-side MD5 for witnesses. -/
def md5f0 : Bytes → Bytes := fun _ => [9]

theorem work_spec_witness :
    work sha0 fs0 upload0 "r" ⟨⟨[], 0⟩, [1]⟩ "r/a" 1 =
      (⟨⟨[(computeKey 1 (List.replicate 32 0),
            Entry.encode ⟨1, "a", "", 1, List.replicate 32 0, []⟩)], 1⟩, [1]⟩,
        Except.ok (Outcome.duplicate "r/a" ""), []) :=
  (work_spec sha0 fs0 upload0 "r" ⟨⟨[], 0⟩, [1]⟩ "r/a" 1 "a" (List.replicate 32 0) true 1 ""
      ⟨[(computeKey 1 (List.replicate 32 0),
        Entry.encode ⟨1, "a", "", 1, List.replicate 32 0, []⟩)], 1⟩
      rfl rfl rfl).1 rfl

theorem Add_spec_witness :
    (⟨[(computeKey 1 [7], Entry.encode ⟨1, "old", "c", 1, [7], [9]⟩)], 1⟩ : DB).Add
        "a" 1 [7] =
      Except.ok (("c" == "" || ([9] : Bytes).isEmpty), 1, "old",
        ⟨[(computeKey 1 [7], Entry.encode ⟨1, "old", "c", 1, [7], [9]⟩)], 1⟩) ∧
    (("c" == "" || ([9] : Bytes).isEmpty) = true ↔ ("c" = "" ∨ ([9] : Bytes) = [])) :=
  (Add_spec ⟨[(computeKey 1 [7], Entry.encode ⟨1, "old", "c", 1, [7], [9]⟩)], 1⟩
      "a" 1 [7]).1 ⟨1, "old", "c", 1, [7], [9]⟩ rfl

theorem computeChecksum_spec_witness :
    computeChecksum sha0 fs0 "r/a" 1 = Except.ok (sha0 [7]) ∧
    computeChecksum sha0 fs1 "r/e" 1 = Except.error "cannot read from file" :=
  ⟨((computeChecksum_spec sha0 fs0 "r/a" 1 (fun _ => rfl)).2.2.1 [7] rfl rfl).1
      (by decide) (by decide),
    ((computeChecksum_spec sha0 fs1 "r/e" 1 (fun _ => rfl)).2.1 []
      "cannot read from file" rfl).1 (by decide) rfl⟩

theorem rename_frame_witness :
    ⟨[(computeKey 1 (List.replicate 32 0),
        Entry.encode ⟨1, "old", "c", 1, List.replicate 32 0, [9]⟩)], 1⟩ =
      (⟨⟨[(computeKey 1 (List.replicate 32 0),
          Entry.encode ⟨1, "old", "c", 1, List.replicate 32 0, [9]⟩)], 1⟩, []⟩ :
        WalkerState).db ∧
    ∃ e, DB.getEntry
        (⟨⟨[(computeKey 1 (List.replicate 32 0),
            Entry.encode ⟨1, "old", "c", 1, List.replicate 32 0, [9]⟩)], 1⟩, []⟩ :
          WalkerState).db 1 (List.replicate 32 0) = some e ∧
      (work sha0 fs0 upload0 "r"
          ⟨⟨[(computeKey 1 (List.replicate 32 0),
              Entry.encode ⟨1, "old", "c", 1, List.replicate 32 0, [9]⟩)], 1⟩, []⟩
          "r/a" 1).1.db.getEntry 1 (List.replicate 32 0) =
        some ⟨e.ID, "a", e.Cloud, e.Size, e.Hash, e.MD5⟩ ∧
      (∀ k, k ≠ computeKey 1 (List.replicate 32 0) →
        aget (work sha0 fs0 upload0 "r"
            ⟨⟨[(computeKey 1 (List.replicate 32 0),
                Entry.encode ⟨1, "old", "c", 1, List.replicate 32 0, [9]⟩)], 1⟩, []⟩
            "r/a" 1).1.db.data k =
          aget (⟨⟨[(computeKey 1 (List.replicate 32 0),
              Entry.encode ⟨1, "old", "c", 1, List.replicate 32 0, [9]⟩)], 1⟩, []⟩ :
            WalkerState).db.data k) ∧
      (work sha0 fs0 upload0 "r"
          ⟨⟨[(computeKey 1 (List.replicate 32 0),
              Entry.encode ⟨1, "old", "c", 1, List.replicate 32 0, [9]⟩)], 1⟩, []⟩
          "r/a" 1).2.2 = [] :=
  rename_frame sha0 fs0 upload0 "r"
    ⟨⟨[(computeKey 1 (List.replicate 32 0),
        Entry.encode ⟨1, "old", "c", 1, List.replicate 32 0, [9]⟩)], 1⟩, []⟩
    "r/a" 1 "a" (List.replicate 32 0) 1 "old"
    ⟨[(computeKey 1 (List.replicate 32 0),
      Entry.encode ⟨1, "old", "c", 1, List.replicate 32 0, [9]⟩)], 1⟩
    rfl rfl rfl rfl (by decide)

theorem worker_spec_witness :
    (worker sha0 fs0 upload0 "r" ⟨⟨[], 0⟩, []⟩ [("r/a", 1)]).2.length =
      [("r/a", 1)].length :=
  (worker_spec sha0 fs0 upload0 "r").1 ⟨⟨[], 0⟩, []⟩ [("r/a", 1)]

theorem Update_spec_witness :
    ∃ s, (⟨[], 0⟩ : DB).Update 1 [7] (fun e => Except.ok e) = Except.error s :=
  (Update_spec ⟨[], 0⟩ 1 [7] (fun e => Except.ok e)).1 rfl

theorem CheckMissing_spec_witness :
    ((⟨[(computeKey 1 [7], Entry.encode ⟨1, "old", "c", 1, [7], [9]⟩)], 1⟩ : DB).CheckMissing
        []).count (computeKey 1 [7], "old") = 1 :=
  (CheckMissing_spec ⟨[(computeKey 1 [7], Entry.encode ⟨1, "old", "c", 1, [7], [9]⟩)], 1⟩
      [] (by simp)).1 (computeKey 1 [7]) (Entry.encode ⟨1, "old", "c", 1, [7], [9]⟩)
    ⟨1, "old", "c", 1, [7], [9]⟩ rfl rfl rfl

theorem Upload_spec_witness :
    Cloud.Upload md5f0 fs0 "d" ⟨[]⟩ "r/a" "a" 1 [7] =
      ⟨"d" ++ "/" ++ "a", md5f0 [7], none,
        ⟨aput ([] : List (String × ObjAttrs)) ("d" ++ "/" ++ "a")
          ⟨(([7] : Bytes).length : Int), md5f0 [7], [(metadataHashKey, encode [7])]⟩⟩⟩ ∧
    aget (Cloud.Upload md5f0 fs0 "d" ⟨[]⟩ "r/a" "a" 1 [7]).store.objects ("d" ++ "/" ++ "a") =
      some ⟨(([7] : Bytes).length : Int), md5f0 [7], [(metadataHashKey, encode [7])]⟩ ∧
    aget ([(metadataHashKey, encode [7])] : List (String × String)) metadataHashKey =
      some (encode [7]) :=
  (Upload_spec md5f0 fs0 "d" ⟨[]⟩ "r/a" "a" 1 [7] [7] rfl).2 rfl

theorem store_completeness_invariant_witness :
    DBInv (worker sha0 fs0 upload0 "r" ⟨⟨[], 0⟩, []⟩ [("r/a", 1)]).1.db :=
  store_completeness_invariant sha0 fs0 upload0 "r"
    (fun fp p size hash c m h => by
      simp only [upload0, Except.ok.injEq, Prod.mk.injEq] at h
      obtain ⟨hc, hm⟩ := h
      subst hc
      subst hm
      exact ⟨by decide, by decide⟩)
    [("r/a", 1)]

end Backup
